import Mathlib

/-!
Verification of the structural metrics engine and surrounding plumbing of the
`ai-coding-assistant` repository (`src/core/analyzer.py`, `src/core/reviewer.py`,
`src/core/optimizer.py`, `src/core/documentor.py`, `src/utils/github_api.py`).

Python `ast` nodes are dynamically typed objects; here they are embedded as a
tagged tree.  Only the node kinds the repository inspects get their own tag
(`isinstance` tests against `ast.If`, `ast.For`, `ast.While`, `ast.With`,
`ast.ExceptHandler`, `ast.BoolOp`, `ast.ClassDef`, `ast.FunctionDef`); every
other construct is represented by a tag those tests reject (`ifExp`,
`asyncForStmt`, `tryStmt`, `constStr`, `exprStmt`, `other` …), since for example
`ast.AsyncFor` and `ast.IfExp` are not subclasses of `ast.For` / `ast.If`.
A `boolOp` node's children are its `values` list; a `forStmt` carries its
`lineno`.  Remote HTTP calls are embedded as an explicit outcome sum type.
-/

/-- The node tags the repository's `isinstance` tests can distinguish. -/
inductive Kind where
  | module
  | ifStmt
  | ifExp
  | forStmt (lineno : Nat)
  | asyncForStmt
  | whileStmt
  | withStmt
  | tryStmt
  | exceptHandler
  | boolOp
  | classDef (name : String)
  | functionDef (name : String) (args : List String)
  | exprStmt
  | constStr (s : String)
  | other
  deriving DecidableEq, Repr

mutual
/-- A Python abstract syntax tree node: a tag plus its child nodes
(the nodes yielded by `ast.iter_child_nodes`, in order). -/
inductive Ast where
  | mk (kind : Kind) (children : AstList)
  deriving DecidableEq, Repr
/-- Children of a node (a list type mutual with `Ast`). -/
inductive AstList where
  | nil
  | cons (head : Ast) (tail : AstList)
  deriving DecidableEq, Repr
end

def Ast.kind : Ast → Kind
  | .mk k _ => k

def Ast.childList : Ast → AstList
  | .mk _ cs => cs

def AstList.toList : AstList → List Ast
  | .nil => []
  | .cons t ts => t :: AstList.toList ts

def AstList.ofList : List Ast → AstList
  | [] => .nil
  | t :: ts => .cons t (AstList.ofList ts)

/-- `ast.iter_child_nodes(t)`: the direct children of a node, in order. -/
def Ast.children (t : Ast) : List Ast := t.childList.toList

/-- Convenience constructor taking the children as an ordinary list. -/
def node (k : Kind) (cs : List Ast) : Ast := .mk k (AstList.ofList cs)

mutual
/-- Number of nodes of a tree (the node itself included). -/
def Ast.size : Ast → Nat
  | .mk _ cs => 1 + AstList.size cs
def AstList.size : AstList → Nat
  | .nil => 0
  | .cons t ts => Ast.size t + AstList.size ts
end

mutual
/-- All nodes of a tree in depth-first (preorder) order.  `ast.walk` visits the
same set of nodes in a different (breadth-first) order; the permutation between
the two is proved below. -/
def Ast.preorder : Ast → List Ast
  | .mk k cs => .mk k cs :: AstList.preorder cs
def AstList.preorder : AstList → List Ast
  | .nil => []
  | .cons t ts => Ast.preorder t ++ AstList.preorder ts
end

/-- Total node count of a queue of trees. -/
def queueSize (l : List Ast) : Nat := (l.map Ast.size).sum

/-- One step of `ast.walk`'s breadth-first loop: pop the front node, yield it and
push its children at the back of the queue.  The fuel argument only makes the
recursion structural; `Ast.walk` supplies the total node count, which is always
enough (`walkBfs_perm`). -/
def walkBfs : Nat → List Ast → List Ast
  | _, [] => []
  | 0, _ :: _ => []
  | fuel + 1, t :: rest => t :: walkBfs fuel (rest ++ t.children)

/-- `ast.walk(t)`: every node of the tree rooted at `t` (the root included),
breadth first. -/
def Ast.walk (t : Ast) : List Ast := walkBfs t.size [t]

namespace CodeAnalyzer

/-- The loop body of `CodeAnalyzer._calculate_complexity`:
`isinstance(node, (ast.If, ast.For, ast.While, ast.With))` adds 1, an
`ast.ExceptHandler` adds 1, and an `ast.BoolOp` adds `len(node.values) - 1`
(a `boolOp` node's children are its `values`).  Every other node adds 0. -/
def increment (n : Ast) : Int :=
  match n.kind with
  | .ifStmt | .forStmt _ | .whileStmt | .withStmt => 1
  | .exceptHandler => 1
  | .boolOp => (n.children.length : Int) - 1
  | _ => 0

/-- `CodeAnalyzer._calculate_complexity`: `complexity = 1`, then every node of
`ast.walk(tree)` adds its contribution; the result is returned as
`float(complexity)`, an exact integer embedded as `Int`. -/
def calculate_complexity (tree : Ast) : Int :=
  tree.walk.foldl (fun complexity n => complexity + increment n) 1

/-- The weight the specification's contract assigns to a node: 1 for a
conditional branch, a loop, or an exception-handling clause, `n - 1` for a
short-circuit boolean combination of `n` operands, and 0 for anything else —
in particular 0 for a `with` block. -/
def branch_weight (n : Ast) : Int :=
  match n.kind with
  | .ifStmt | .forStmt _ | .whileStmt => 1
  | .exceptHandler => 1
  | .boolOp => (n.children.length : Int) - 1
  | _ => 0

def isWithStmt (n : Ast) : Bool :=
  match n.kind with
  | .withStmt => true
  | _ => false

def sample_branchy_unit : Ast :=
  node .module
    [node (.forStmt 1)
      [node .ifStmt
        [node .exprStmt [node .boolOp [node .other [], node .other []]]]]]

/-- A unit consisting of a single `with` block: no conditional branch, no loop,
no exception handler, no boolean combination. -/
def with_only_unit : Ast := node .module [node .withStmt [node .other []]]

def ops3 : List Ast := [node .other [], node .other [], node .other []]

end CodeAnalyzer

/-- A suggestion dictionary as built by `CodeOptimizer._static_analysis` (the
AI-provided suggestion lists share this shape in the fields the engine ever
reads).  The concatenation finding carries no line number. -/
structure Finding where
  title : String
  priority : String
  description : String
  file : String
  line : Option Nat
  impact : String
  deriving DecidableEq, Repr

namespace CodeOptimizer

/-- `isinstance(node, ast.For)` — `ast.AsyncFor` and `ast.While` do not match. -/
def isFor (n : Ast) : Bool :=
  match n.kind with
  | .forStmt _ => true
  | _ => false

/-- `node.lineno` of a `for` node. -/
def forLineno (n : Ast) : Nat :=
  match n.kind with
  | .forStmt l => l
  | _ => 0

/-- The dictionary appended for a detected nested loop. -/
def nested_loop_finding (file_path : String) (n : Ast) : Finding :=
  { title := "Nested loop detected"
    priority := "medium"
    description := "Nested loops can lead to O(n^2) complexity. Consider using sets or dictionaries for lookups."
    file := file_path
    line := some (forLineno n)
    impact := "May improve performance significantly" }

/-- The scan `for child in ast.walk(node): if isinstance(child, ast.For) and
child != node: …; break` — the first inner `for`, if any.  Python's `!=` is
object identity on `ast` nodes; inside `ast.walk(node)` the only element
identical to `node` is the head occurrence, and structural disequality agrees
with identity there because a proper descendant has strictly smaller size
(`first_inner_for_isSome_iff`). -/
def first_inner_for (n : Ast) : Option Ast :=
  n.walk.find? (fun child => isFor child && decide (child ≠ n))

/-- The nested-loop half of `CodeOptimizer._static_analysis`: for every node of
`ast.walk(tree)` that is an `ast.For`, scan its subtree; if some other `for`
occurs there, append one finding tagged with the outer loop's line and stop
scanning that subtree (the `break`). -/
def static_loops (file_path : String) (tree : Ast) : List Finding :=
  tree.walk.foldl
    (fun suggestions n =>
      if isFor n then
        match first_inner_for n with
        | some _ => suggestions ++ [nested_loop_finding file_path n]
        | none => suggestions
      else suggestions)
    []

mutual
/-- A `for` node occurs in the tree (the root included). -/
def containsFor : Ast → Bool
  | .mk k cs => isFor (.mk k cs) || containsForL cs
def containsForL : AstList → Bool
  | .nil => false
  | .cons t ts => containsFor t || containsForL ts
end

/-- A `for` node occurs strictly below `n`. -/
def properContainsFor (n : Ast) : Bool := containsForL n.childList

/-- A triple chain of `for` loops: `for … : for … : for … : pass`. -/
def chain_outer : Ast :=
  node (.forStmt 1) [node (.forStmt 2) [node (.forStmt 3) [node .other []]]]

def chain_unit : Ast := node .module [chain_outer]

/-- `code.count("+=")`: non-overlapping occurrences, scanned left to right. -/
def count_concat_ops : List Char → Nat
  | '+' :: '=' :: rest => 1 + count_concat_ops rest
  | _ :: rest => count_concat_ops rest
  | [] => 0

/-- `"str" in code`. -/
def contains_str_marker : List Char → Bool
  | 's' :: 't' :: 'r' :: _ => true
  | _ :: rest => contains_str_marker rest
  | [] => false

/-- The concatenation half of `_static_analysis`:
`if code.count('+=') > 10 and 'str' in code:` append one low-priority finding
(purely textual, not AST-aware). -/
def static_concat (file_path : String) (code : List Char) : List Finding :=
  if 10 < count_concat_ops code ∧ contains_str_marker code = true then
    [{ title := "Repeated string concatenation"
       priority := "low"
       description := "Multiple string concatenations can be inefficient. Consider using join() or StringIO."
       file := file_path
       line := none
       impact := "Moderate performance improvement" }]
  else []

/-- `CodeOptimizer._static_analysis`: a `SyntaxError` from `ast.parse` returns
the empty list at once (the concatenation check is not even reached); otherwise
the nested-loop scan runs over the tree and the concatenation heuristic over the
raw text. -/
def static_analysis (code : List Char) (parsed : Option Ast) (file_path : String) :
    List Finding :=
  match parsed with
  | none => []
  | some tree => static_loops file_path tree ++ static_concat file_path code

/-- `n` copies of the token `+=`. -/
def token_run : Nat → List Char
  | 0 => []
  | n + 1 => '+' :: '=' :: token_run n

end CodeOptimizer

/-- One issue dictionary of a review: `_calculate_score` only ever reads
`i.get('severity')` (absent key gives `None`, matching no tier). -/
structure ReviewIssue where
  severity : Option String
  deriving DecidableEq, Repr

/-- One improvement-suggestion dictionary (only its presence matters to the
score). -/
structure ReviewSuggestion where
  title : String
  description : String
  code_example : String
  deriving DecidableEq, Repr

/-- One inline review comment. -/
structure ReviewComment where
  path : String
  line : Nat
  body : String
  deriving DecidableEq, Repr

/-- The review payload expected from the remote delegate
(`summary` / `issues` / `suggestions` / `comments`). -/
structure ReviewPayload where
  summary : String
  issues : List ReviewIssue
  suggestions : List ReviewSuggestion
  comments : List ReviewComment
  deriving DecidableEq, Repr

/-- Outcome of one remote delegate call (`requests.post`, `raise_for_status`,
`response.json()`, `json.loads` of the content) as observed at the call site:
either a payload of the expected shape or one of the failure modes the
`except Exception` clause catches. -/
inductive RemoteOutcome (α : Type) where
  | ok (payload : α)
  | networkError
  | non2xx
  | timeout
  | malformedJson
  deriving DecidableEq, Repr

def RemoteOutcome.isFailure {α : Type} : RemoteOutcome α → Bool
  | .ok _ => false
  | _ => true

namespace CodeReviewer

/-- Python's `int()` on the score: truncation toward zero.  A rational in lowest
terms with positive denominator truncates toward zero as T-division of numerator
by denominator.  (The Python arithmetic runs in binary floating point, exact for
these half-integer magnitudes.) -/
def pythonInt (q : ℚ) : Int := q.num.tdiv q.den

/-- `CodeReviewer._calculate_score`: `base_score = 10`; count the issues whose
`severity` is `critical` / `medium` / `low`; `score = base_score - 2c - m - 0.5l`;
add 1 if the suggestion list is truthy (non-empty); return
`max(1, min(10, int(score)))`. -/
def calculate_score (review : ReviewPayload) : Int :=
  let base_score : ℚ := 10
  let critical_issues : ℚ :=
    ((review.issues.filter (fun i => i.severity == some "critical")).length : ℚ)
  let medium_issues : ℚ :=
    ((review.issues.filter (fun i => i.severity == some "medium")).length : ℚ)
  let low_issues : ℚ :=
    ((review.issues.filter (fun i => i.severity == some "low")).length : ℚ)
  let score := base_score - critical_issues * 2 - medium_issues * 1 - low_issues * (1 / 2)
  let score := if review.suggestions.isEmpty then score else score + 1
  max 1 (min 10 (pythonInt score))

/-- The score contract exactly as the specification words it: start at 10;
subtract 2 per highest-tier issue, 1 per middle-tier issue, 0.5 per lowest-tier
issue; add 1 if any improvement suggestions are present; truncate toward zero
(floor for a nonnegative value, ceiling for a negative one); clamp to the
closed interval [1, 10]. -/
def computeReviewScoreSpec (review : ReviewPayload) : Int :=
  let c : ℚ := (review.issues.countP (fun i => i.severity == some "critical") : ℚ)
  let m : ℚ := (review.issues.countP (fun i => i.severity == some "medium") : ℚ)
  let l : ℚ := (review.issues.countP (fun i => i.severity == some "low") : ℚ)
  let raw : ℚ := 10 - 2 * c - 1 * m - (1 / 2) * l
      + (if review.suggestions.length ≠ 0 then 1 else 0)
  let truncated : Int := if raw < 0 then ⌈raw⌉ else ⌊raw⌋
  min 10 (max 1 truncated)

end CodeReviewer

/-- One issue dictionary of the analyzer's AI response (`severity`, `message`,
`line_number`); the engine forwards these unread. -/
structure AnalyzerIssue where
  severity : Option String
  message : Option String
  line_number : Option Nat
  deriving DecidableEq, Repr

/-- One detected-pattern dictionary of the analyzer's AI response. -/
structure PatternInfo where
  pattern_name : String
  description : String
  deriving DecidableEq, Repr

/-- The payload `CodeAnalyzer._analyze_with_ai` asks the delegate for:
`issues`, `patterns`, `dependencies`. -/
structure AiAnalysis where
  issues : List AnalyzerIssue
  patterns : List PatternInfo
  dependencies : List String
  deriving DecidableEq, Repr

namespace CodeAnalyzer

/-- `CodeAnalyzer._analyze_with_ai`: post the rendered prompt; any exception in
the `try` block — network error, non-2xx via `raise_for_status`, timeout,
JSON-decode failure — is caught by `except Exception` and replaced by
`{'issues': [], 'patterns': [], 'dependencies': []}`.  The function is total:
nothing propagates past the call site. -/
def analyze_with_ai (o : RemoteOutcome AiAnalysis) : AiAnalysis :=
  match o with
  | .ok payload => payload
  | _ => { issues := [], patterns := [], dependencies := [] }

/-- `line.split('\n')`. -/
def split_lines : List Char → List (List Char)
  | [] => [[]]
  | c :: rest =>
    let ls := split_lines rest
    if c = '\n' then [] :: ls
    else (c :: ls.headI) :: ls.tail

/-- `len([line for line in code.split('\n') if line.strip()])`: the number of
lines holding at least one non-whitespace character. -/
def lines_of_code (text : List Char) : Nat :=
  ((split_lines text).filter (fun l => l.any (fun c => !c.isWhitespace))).length

/-- One source unit as `analyze_file` observes it: path, raw text, the outcome
of `ast.parse` (`none` embeds the `SyntaxError` branch), and the outcome of the
remote call made on its text. -/
structure SourceUnit where
  path : String
  text : List Char
  parse : Option Ast
  ai : RemoteOutcome AiAnalysis
  deriving DecidableEq, Repr

/-- The `AnalysisResult` dataclass. -/
structure AnalysisResult where
  file_path : String
  complexity_score : Int
  lines_of_code : Nat
  issues_found : List AnalyzerIssue
  patterns_detected : List PatternInfo
  dependencies : List String
  deriving DecidableEq, Repr

/-- `CodeAnalyzer.analyze_file`: count non-blank lines; try `ast.parse`, a
`SyntaxError` yields complexity 0; then run the AI analysis on the raw text —
regardless of the parse outcome — and take the issue / pattern / dependency
lists from its (possibly defaulted) reply. -/
def analyze_file (u : SourceUnit) : AnalysisResult :=
  let loc := lines_of_code u.text
  let complexity : Int :=
    match u.parse with
    | some tree => calculate_complexity tree
    | none => 0
  let ai_analysis := analyze_with_ai u.ai
  { file_path := u.path
    complexity_score := complexity
    lines_of_code := loc
    issues_found := ai_analysis.issues
    patterns_detected := ai_analysis.patterns
    dependencies := ai_analysis.dependencies }

/-- The fields of `analyze_directory`'s output dictionary the claims concern:
`files_analyzed = len(results)`, `issues_found` summed over results, and
`details = results` with one entry per analyzed unit.  (The `summary` object
built by `_generate_summary` — average complexity, issue-type counts — is not
read by any claim and is left out.) -/
structure DirectoryReport where
  files_analyzed : Nat
  issues_found : Nat
  details : List AnalysisResult
  deriving DecidableEq, Repr

/-- `CodeAnalyzer.analyze_directory` over the units its file scan found: each
unit is analyzed in order and appended to `results`; the per-file `try/except`
means one unit's failure cannot abort the loop, and `analyze_file` itself is
total (a parse failure is already handled inside it). -/
def analyze_directory (units : List SourceUnit) : DirectoryReport :=
  let results := units.map analyze_file
  { files_analyzed := results.length
    issues_found := (results.map (fun r => r.issues_found.length)).sum
    details := results }

end CodeAnalyzer

namespace CodeReviewer

/-- The fallback dictionary of `CodeReviewer._analyze_with_ai`'s `except` clause. -/
def error_default : ReviewPayload :=
  { summary := "Unable to perform AI review due to an error."
    issues := []
    suggestions := []
    comments := [] }

/-- `CodeReviewer._analyze_with_ai`: any exception during the remote call is
caught and replaced by `error_default`; nothing propagates past the call site. -/
def analyze_with_ai (o : RemoteOutcome ReviewPayload) : ReviewPayload :=
  match o with
  | .ok payload => payload
  | _ => error_default

end CodeReviewer

namespace CodeOptimizer

/-- `CodeOptimizer._analyze_with_ai`: any exception during the remote call is
caught and replaced by the empty suggestion list. -/
def analyze_with_ai (o : RemoteOutcome (List Finding)) : List Finding :=
  match o with
  | .ok payload => payload
  | _ => []

end CodeOptimizer

namespace CodeAnalyzer

/-- A unit whose source does not parse, but whose remote analysis succeeds and
reports one issue. -/
def failing_unit : SourceUnit :=
  { path := "bad.py"
    text := ['d', 'e', 'f', ' ', 'f', '(', ':']
    parse := none
    ai := .ok
      { issues := [{ severity := some "high"
                     message := some "suspicious signature"
                     line_number := some 1 }]
        patterns := []
        dependencies := [] } }

/-- A unit that fails to parse and whose remote call also fails (times out). -/
def failing_unit_timeout : SourceUnit :=
  { path := "bad.py"
    text := ['d', 'e', 'f', ' ', 'f', '(', ':']
    parse := none
    ai := .timeout }

/-- A well-formed unit placed after the failing one in the batch. -/
def ok_unit : SourceUnit :=
  { path := "ok.py"
    text := ['x', ' ', '=', ' ', '1']
    parse := some (node .module [node .other []])
    ai := .timeout }

end CodeAnalyzer

/-- A function record as `_extract_functions` / the method loop build it:
`name`, `docstring`, positional argument names. -/
structure MethodInfo where
  name : String
  docstring : Option String
  args : List String
  deriving DecidableEq, Repr

/-- A class record: `name`, `docstring`, and its direct methods in body order. -/
structure ClassInfo where
  name : String
  docstring : Option String
  methods : List MethodInfo
  deriving DecidableEq, Repr

/-- `ast.get_docstring(node)`: the string constant standing alone as the first
statement of the node's body, if any.  (For `classDef` / `functionDef` /
`module` nodes of this embedding, the children are the body statements; formal
argument names ride in the tag.) -/
def get_docstring (n : Ast) : Option String :=
  match n.children with
  | first :: _ =>
    match first.kind, first.children with
    | Kind.exprStmt, Ast.mk (Kind.constStr s) _ :: _ => some s
    | _, _ => none
  | [] => none

namespace Documentor

/-- `Documentor._extract_classes`: for every `ast.ClassDef` met by `ast.walk`,
record its name, docstring and — for each `ast.FunctionDef` directly in its
body, in order — a method record with name, docstring and argument names. -/
def extract_classes (tree : Ast) : List ClassInfo :=
  tree.walk.filterMap (fun n =>
    match n.kind with
    | .classDef cname =>
      some
        { name := cname
          docstring := get_docstring n
          methods := n.children.filterMap (fun item =>
            match item.kind with
            | .functionDef fname args =>
              some { name := fname, docstring := get_docstring item, args := args }
            | _ => none) }
    | _ => none)

/-- The attribute access `node.parent` in `_extract_functions`: `ast.parse`
sets no `parent` attribute on nodes and no code in this repository assigns one,
so the access raises `AttributeError` whenever it is evaluated. -/
def getattr_parent (_n : Ast) : Except String Ast :=
  .error "AttributeError: 'FunctionDef' object has no attribute 'parent'"

/-- `Documentor._extract_functions`: for every node of `ast.walk`, the test
`isinstance(node, ast.FunctionDef) and not isinstance(node.parent, ast.ClassDef)`
— short-circuit, so `node.parent` is only evaluated on `FunctionDef` nodes,
where it raises; the exception propagates out of the extractor (embedded as
`Except.error`). -/
def extract_functions (tree : Ast) : Except String (List MethodInfo) :=
  tree.walk.foldlM (fun functions n =>
    match n.kind with
    | .functionDef fname args =>
      match getattr_parent n with
      | .error e => .error e
      | .ok p =>
        match p.kind with
        | .classDef _ => .ok functions
        | _ => .ok (functions ++ [{ name := fname
                                    docstring := get_docstring n
                                    args := args }])
    | _ => .ok functions) []

/-- The unit of the claim: one class with two methods, then one free function. -/
def sample_module : Ast :=
  node .module
    [node (.classDef "C")
      [node .exprStmt [node (.constStr "class doc") []],
       node (.functionDef "m1" ["self"]) [node .other []],
       node (.functionDef "m2" ["self", "x"]) [node .other []]],
     node (.functionDef "free_fn" ["y"]) [node .other []]]

end Documentor

/-- The configuration values `GitHubAPI.__init__` reads; `Config.github_token`
and `Config.github_repository` always return strings (default `''`). -/
structure GitHubConfig where
  github_token : String
  github_repository : String
  deriving DecidableEq, Repr

/-- The constructed REST client state. -/
structure GitHubAPI where
  base_url : String
  token : String
  repository : String
  deriving DecidableEq, Repr

/-- `GitHubAPI.__init__`: store the fixed base URL, the token and the repository,
then `if not self.token: raise ValueError('GitHub token is required')` — the
token is always a string, so falsy means empty.  A raising constructor hands
back no object, embedded as `Except`; the request helpers never re-check the
credential, so this is the only check. -/
def GitHubAPI.init (config : GitHubConfig) : Except String GitHubAPI :=
  let api : GitHubAPI :=
    { base_url := "https://api.github.com"
      token := config.github_token
      repository := config.github_repository }
  if api.token = "" then .error "GitHub token is required"
  else .ok api

namespace CodeOptimizer

/-- One source unit as `_optimize_file` observes it: path, raw text, parse
outcome, and the outcome of the remote optimization call. -/
structure OptUnit where
  path : String
  text : List Char
  parse : Option Ast
  ai : RemoteOutcome (List Finding)
  deriving DecidableEq, Repr

/-- `CodeOptimizer._optimize_file`: the AI suggestions (defaulted to `[]` on a
failed call) followed by the static-analysis suggestions. -/
def optimize_file (u : OptUnit) : List Finding :=
  analyze_with_ai u.ai ++ static_analysis u.text u.parse u.path

/-- The report dictionary `optimize_code` returns. -/
structure OptimizeReport where
  path : String
  total_suggestions : Nat
  suggestions : List Finding
  deriving DecidableEq, Repr

/-- `CodeOptimizer.optimize_code`: gather the suggestions of the file (or of
every file under the directory, in scan order), truncate with
`suggestions[:max_suggestions]`, and report `total_suggestions` as the length
of the truncated list. -/
def optimize_code (path : String) (units : List OptUnit) (max_suggestions : Nat) :
    OptimizeReport :=
  let suggestions := units.flatMap optimize_file
  let suggestions := suggestions.take max_suggestions
  { path := path
    total_suggestions := suggestions.length
    suggestions := suggestions }

end CodeOptimizer

theorem queueSize_nil : queueSize [] = 0 := rfl

theorem queueSize_cons (t : Ast) (l : List Ast) :
    queueSize (t :: l) = t.size + queueSize l := by
  simp [queueSize]

theorem queueSize_append (l₁ l₂ : List Ast) :
    queueSize (l₁ ++ l₂) = queueSize l₁ + queueSize l₂ := by
  simp [queueSize]

theorem AstList.queueSize_toList : ∀ (ts : AstList), queueSize ts.toList = ts.size
  | .nil => rfl
  | .cons t ts => by
    simp [AstList.toList, AstList.size, queueSize_cons, AstList.queueSize_toList ts]

theorem Ast.one_le_size (t : Ast) : 1 ≤ t.size := by
  cases t with
  | mk k cs => simp [Ast.size]

theorem Ast.size_children (t : Ast) : t.size = 1 + queueSize t.children := by
  cases t with
  | mk k cs => simp [Ast.size, Ast.children, Ast.childList, AstList.queueSize_toList]

theorem AstList.preorder_toList : ∀ (ts : AstList),
    AstList.preorder ts = ts.toList.flatMap Ast.preorder
  | .nil => rfl
  | .cons t ts => by
    simp [AstList.preorder, AstList.toList, AstList.preorder_toList ts]

theorem Ast.preorder_def (t : Ast) :
    t.preorder = t :: t.children.flatMap Ast.preorder := by
  cases t with
  | mk k cs =>
    simp [Ast.preorder, Ast.children, Ast.childList, AstList.preorder_toList]

/-- Breadth-first traversal yields the same nodes as depth-first traversal, as a
permutation, whenever the fuel covers the queue. -/
theorem walkBfs_perm :
    ∀ (fuel : Nat) (l : List Ast), queueSize l ≤ fuel →
      (walkBfs fuel l).Perm (l.flatMap Ast.preorder) := by
  intro fuel
  induction fuel with
  | zero =>
    intro l h
    cases l with
    | nil => simp [walkBfs]
    | cons t rest =>
      exfalso
      have h1 := Ast.one_le_size t
      rw [queueSize_cons] at h
      omega
  | succ fuel ih =>
    intro l h
    cases l with
    | nil => simp [walkBfs]
    | cons t rest =>
      have hsz : queueSize (rest ++ t.children) ≤ fuel := by
        have h2 := Ast.size_children t
        rw [queueSize_cons] at h
        rw [queueSize_append]
        omega
      have ih' := ih (rest ++ t.children) hsz
      rw [List.flatMap_append] at ih'
      have step : walkBfs (fuel + 1) (t :: rest) = t :: walkBfs fuel (rest ++ t.children) := rfl
      rw [step, List.flatMap_cons, Ast.preorder_def t, List.cons_append]
      refine List.Perm.trans (List.Perm.cons t ih') ?_
      exact List.Perm.cons t List.perm_append_comm

/-- `ast.walk` visits exactly the nodes of the tree: it is a permutation of the
depth-first node list. -/
theorem Ast.walk_perm (t : Ast) : t.walk.Perm t.preorder := by
  have h := walkBfs_perm t.size [t] (by simp [queueSize_cons, queueSize_nil])
  simpa [Ast.walk] using h

mutual
/-- Every node reached by traversal is no larger than the tree it came from. -/
theorem mem_preorder_size_le :
    ∀ (t : Ast) (x : Ast), x ∈ Ast.preorder t → Ast.size x ≤ Ast.size t
  | .mk k cs, x, hx => by
    rw [Ast.preorder] at hx
    rcases List.mem_cons.mp hx with h | h
    · subst h; exact Nat.le_refl _
    · have h2 := mem_preorderL_size_le cs x h
      simp only [Ast.size]
      omega
theorem mem_preorderL_size_le :
    ∀ (ts : AstList) (x : Ast), x ∈ AstList.preorder ts → Ast.size x ≤ AstList.size ts
  | .nil, x, hx => by simp [AstList.preorder] at hx
  | .cons t ts, x, hx => by
    rw [AstList.preorder] at hx
    rcases List.mem_append.mp hx with h | h
    · have h2 := mem_preorder_size_le t x h
      simp only [AstList.size]
      omega
    · have h2 := mem_preorderL_size_le ts x h
      simp only [AstList.size]
      omega
end

/-- Folding an additive accumulator over a list is the starting value plus the
sum of the contributions. -/
theorem foldl_add_eq_sum (f : Ast → Int) :
    ∀ (l : List Ast) (a : Int),
      l.foldl (fun acc n => acc + f n) a = a + (l.map f).sum := by
  intro l
  induction l with
  | nil => intro a; simp
  | cons t ts ih =>
    intro a
    rw [List.foldl_cons, ih, List.map_cons, List.sum_cons]
    ring

theorem AstList.toList_ofList : ∀ (l : List Ast), (AstList.ofList l).toList = l
  | [] => rfl
  | t :: ts => by simp [AstList.ofList, AstList.toList, AstList.toList_ofList ts]

theorem node_children (k : Kind) (cs : List Ast) : (node k cs).children = cs := by
  simp [node, Ast.children, Ast.childList, AstList.toList_ofList]

theorem node_kind (k : Kind) (cs : List Ast) : (node k cs).kind = k := rfl

theorem sum_map_add_fn (f g : Ast → Int) (l : List Ast) :
    (l.map (fun n => f n + g n)).sum = (l.map f).sum + (l.map g).sum := by
  induction l with
  | nil => simp
  | cons t ts ih =>
    simp only [List.map_cons, List.sum_cons, ih]
    ring

theorem sum_map_indicator (p : Ast → Bool) (l : List Ast) :
    (l.map (fun n => if p n then (1 : Int) else 0)).sum = (l.countP p : Int) := by
  induction l with
  | nil => simp
  | cons t ts ih =>
    by_cases h : p t
    · simp only [List.map_cons, List.sum_cons, List.countP_cons, h, if_true, ih]
      push_cast
      ring
    · simp [List.countP_cons, h, ih]

namespace CodeAnalyzer

theorem increment_split (n : Ast) :
    increment n = branch_weight n + (if isWithStmt n then 1 else 0) := by
  cases n with
  | mk k cs => cases k <;> simp [increment, branch_weight, isWithStmt, Ast.kind]

theorem complexity_as_sum (t : Ast) :
    calculate_complexity t = 1 + (t.preorder.map increment).sum := by
  rw [calculate_complexity, foldl_add_eq_sum]
  have h := (t.walk_perm.map increment).sum_eq
  rw [h]

theorem complexity_decomposition (t : Ast) :
    calculate_complexity t
      = 1 + (t.preorder.map branch_weight).sum
          + (t.preorder.countP isWithStmt : Int) := by
  rw [complexity_as_sum]
  have hmap : t.preorder.map increment
      = t.preorder.map (fun n => branch_weight n + (if isWithStmt n then 1 else 0)) :=
    List.map_congr_left (fun n _ => increment_split n)
  rw [hmap, sum_map_add_fn, sum_map_indicator]
  ring

theorem branch_weight_nonneg (n : Ast)
    (h : n.kind = Kind.boolOp → 2 ≤ n.children.length) :
    0 ≤ branch_weight n := by
  rcases n with ⟨k, cs⟩
  cases k <;>
    simp only [branch_weight, Ast.kind, Ast.children, Ast.childList] <;>
    try norm_num
  have h2 := h rfl
  simp only [Ast.children, Ast.childList] at h2
  omega

/-- C1 (amended).  For every parsed unit, `_calculate_complexity` returns 1 plus
the contract's weight of every node (1 per conditional branch, loop, or
exception-handling clause; `n - 1` per short-circuit boolean combination of `n`
operands) PLUS one for each `with` (context-manager) block: the code also tests
`isinstance(node, ast.With)`, which the claim as stated omits.  A parsed unit
whose boolean combinations all have at least two operands scores at least 1,
never 0 (and exactly 1.0 when it has zero branching constructs and zero `with`
blocks, since then both added terms vanish). -/
theorem complexity_contract (t : Ast) :
    calculate_complexity t
        = 1 + (t.preorder.map branch_weight).sum
            + (t.preorder.countP isWithStmt : Int)
      ∧ ((∀ n ∈ t.preorder, n.kind = Kind.boolOp → 2 ≤ n.children.length) →
          1 ≤ calculate_complexity t) := by
  refine ⟨complexity_decomposition t, fun hwf => ?_⟩
  have hsum : 0 ≤ (t.preorder.map branch_weight).sum := by
    apply List.sum_nonneg
    intro x hx
    rcases List.mem_map.mp hx with ⟨n, hn, rfl⟩
    exact branch_weight_nonneg n (hwf n hn)
  have hcount : (0 : Int) ≤ (t.preorder.countP isWithStmt : Int) := Int.natCast_nonneg _
  have hd := complexity_decomposition t
  omega

theorem complexity_contract_witness :
    calculate_complexity sample_branchy_unit
        = 1 + (sample_branchy_unit.preorder.map branch_weight).sum
            + (sample_branchy_unit.preorder.countP isWithStmt : Int)
      ∧ 1 ≤ calculate_complexity sample_branchy_unit :=
  ⟨(complexity_contract sample_branchy_unit).1,
   (complexity_contract sample_branchy_unit).2 (by decide)⟩

/-- C1 counterexample: a successfully parsed unit in which every node's contract
weight is 0 (zero branching constructs), yet `_calculate_complexity` returns
2.0, not 1.0, because the code also counts the `with` block. -/
theorem complexity_with_counterexample :
    (∀ n ∈ with_only_unit.preorder, branch_weight n = 0) ∧
    calculate_complexity with_only_unit = 2 ∧
    calculate_complexity with_only_unit ≠ 1 := by
  decide

/-- C8: appending to a unit a statement holding one short-circuit boolean
combination of `n ≥ 2` trivial operands raises the complexity by exactly
`n - 1`. -/
theorem boolop_increment (body ops : List Ast) (_h2 : 2 ≤ ops.length)
    (hops : ∀ o ∈ ops, o = node .other []) :
    calculate_complexity (node .module (body ++ [node .exprStmt [node .boolOp ops]]))
      = calculate_complexity (node .module body) + ((ops.length : Int) - 1) := by
  have key : ∀ (l : List Ast), calculate_complexity (node Kind.module l)
      = 1 + ((l.flatMap Ast.preorder).map increment).sum := by
    intro l
    rw [complexity_as_sum, Ast.preorder_def, node_children]
    simp [increment, node_kind]
  rw [key, key, List.flatMap_append, List.map_append, List.sum_append]
  have hexpr : ([node Kind.exprStmt [node Kind.boolOp ops]]).flatMap Ast.preorder
      = node Kind.exprStmt [node Kind.boolOp ops]
          :: node Kind.boolOp ops :: ops.flatMap Ast.preorder := by
    simp [Ast.preorder_def, node_children]
  rw [hexpr]
  have hzero : ((ops.flatMap Ast.preorder).map increment).sum = 0 := by
    apply List.sum_eq_zero
    intro x hx
    rcases List.mem_map.mp hx with ⟨m, hm, rfl⟩
    rcases List.mem_flatMap.mp hm with ⟨o, ho, hmo⟩
    rw [hops o ho] at hmo
    have hm2 : m = node Kind.other [] := by
      have hp : Ast.preorder (node Kind.other []) = [node Kind.other []] := rfl
      rw [hp] at hmo
      exact List.mem_singleton.mp hmo
    rw [hm2]
    rfl
  simp only [List.map_cons, List.sum_cons, hzero]
  have hinc1 : increment (node Kind.exprStmt [node Kind.boolOp ops]) = 0 := rfl
  have hinc2 : increment (node Kind.boolOp ops) = (ops.length : Int) - 1 := by
    simp [increment, node_kind, node_children]
  rw [hinc1, hinc2]
  ring

theorem boolop_increment_witness :
    calculate_complexity (node Kind.module ([] ++ [node Kind.exprStmt [node Kind.boolOp ops3]]))
      = calculate_complexity (node Kind.module []) + ((ops3.length : Int) - 1) :=
  boolop_increment [] ops3 (by decide) (by decide)

end CodeAnalyzer

namespace CodeOptimizer

theorem containsForL_toList : ∀ (ts : AstList),
    containsForL ts = ts.toList.any containsFor
  | .nil => rfl
  | .cons t ts => by
    simp [containsForL, AstList.toList, containsForL_toList ts]

mutual
theorem containsFor_iff :
    ∀ (t : Ast), containsFor t = true ↔ ∃ x ∈ Ast.preorder t, isFor x = true
  | .mk k cs => by
    simp only [containsFor, Ast.preorder, List.mem_cons, Bool.or_eq_true]
    rw [containsForL_iff cs]
    constructor
    · rintro (h | ⟨x, hx, hfor⟩)
      · exact ⟨.mk k cs, Or.inl rfl, h⟩
      · exact ⟨x, Or.inr hx, hfor⟩
    · rintro ⟨x, hx | hx, hfor⟩
      · subst hx; exact Or.inl hfor
      · exact Or.inr ⟨x, hx, hfor⟩
theorem containsForL_iff :
    ∀ (ts : AstList), containsForL ts = true ↔ ∃ x ∈ AstList.preorder ts, isFor x = true
  | .nil => by simp [containsForL, AstList.preorder]
  | .cons t ts => by
    simp only [containsForL, AstList.preorder, List.mem_append, Bool.or_eq_true]
    rw [containsFor_iff t, containsForL_iff ts]
    constructor
    · rintro (⟨x, hx, h⟩ | ⟨x, hx, h⟩)
      · exact ⟨x, Or.inl hx, h⟩
      · exact ⟨x, Or.inr hx, h⟩
    · rintro ⟨x, hx | hx, h⟩
      · exact Or.inl ⟨x, hx, h⟩
      · exact Or.inr ⟨x, hx, h⟩
end

theorem size_le_queueSize (o : Ast) (l : List Ast) (h : o ∈ l) :
    o.size ≤ queueSize l :=
  List.single_le_sum (fun x _ => Nat.zero_le x) _ (List.mem_map.mpr ⟨o, h, rfl⟩)

/-- The break-at-first-inner-loop scan finds something exactly when a `for` node
occurs strictly below `n`. -/
theorem first_inner_for_isSome_iff (n : Ast) :
    (first_inner_for n).isSome = true ↔ properContainsFor n = true := by
  rw [first_inner_for, List.find?_isSome]
  have hiff : (∃ c ∈ n.preorder, isFor c = true ∧ c ≠ n) ↔
      ∃ c ∈ n.children.flatMap Ast.preorder, isFor c = true := by
    constructor
    · rintro ⟨c, hc, hfor, hne⟩
      rw [Ast.preorder_def] at hc
      rcases List.mem_cons.mp hc with rfl | hc
      · exact absurd rfl hne
      · exact ⟨c, hc, hfor⟩
    · rintro ⟨c, hc, hfor⟩
      have hne : c ≠ n := by
        rcases List.mem_flatMap.mp hc with ⟨o, ho, hco⟩
        have h1 : c.size ≤ o.size := mem_preorder_size_le o c hco
        have h2 : o.size ≤ queueSize n.children := size_le_queueSize o _ ho
        have h3 : n.size = 1 + queueSize n.children := Ast.size_children n
        intro he
        rw [he] at h1
        omega
      refine ⟨c, ?_, hfor, hne⟩
      rw [Ast.preorder_def]
      exact List.mem_cons_of_mem _ hc
  have hstruct : (∃ c ∈ n.children.flatMap Ast.preorder, isFor c = true) ↔
      properContainsFor n = true := by
    rw [properContainsFor, containsForL_toList]
    rw [show n.childList.toList = n.children from rfl, List.any_eq_true]
    constructor
    · rintro ⟨c, hc, hfor⟩
      rcases List.mem_flatMap.mp hc with ⟨o, ho, hco⟩
      exact ⟨o, ho, (containsFor_iff o).mpr ⟨c, hco, hfor⟩⟩
    · rintro ⟨o, ho, hcf⟩
      rcases (containsFor_iff o).mp hcf with ⟨c, hco, hfor⟩
      exact ⟨c, List.mem_flatMap.mpr ⟨o, ho, hco⟩, hfor⟩
  constructor
  · rintro ⟨c, hc, hp⟩
    rw [Bool.and_eq_true, decide_eq_true_eq] at hp
    exact hstruct.mp (hiff.mp ⟨c, (Ast.walk_perm n).mem_iff.mp hc, hp.1, hp.2⟩)
  · intro hcf
    rcases hiff.mpr (hstruct.mpr hcf) with ⟨c, hc, hfor, hne⟩
    refine ⟨c, (Ast.walk_perm n).mem_iff.mpr hc, ?_⟩
    rw [Bool.and_eq_true, decide_eq_true_eq]
    exact ⟨hfor, hne⟩

theorem static_loops_eq (fp : String) (t : Ast) :
    static_loops fp t
      = (t.walk.filter (fun n => isFor n && properContainsFor n)).map
          (nested_loop_finding fp) := by
  have aux : ∀ (l : List Ast) (acc : List Finding),
      l.foldl
        (fun suggestions n =>
          if isFor n then
            match first_inner_for n with
            | some _ => suggestions ++ [nested_loop_finding fp n]
            | none => suggestions
          else suggestions)
        acc
      = acc ++ (l.filter (fun n => isFor n && properContainsFor n)).map
          (nested_loop_finding fp) := by
    intro l
    induction l with
    | nil => intro acc; simp
    | cons x xs ih =>
      intro acc
      rw [List.foldl_cons]
      by_cases hf : isFor x
      · cases hsome : first_inner_for x with
        | some v =>
          have hpc : properContainsFor x = true := by
            rw [← first_inner_for_isSome_iff, hsome]
            rfl
          simp [hf, hsome, hpc, List.filter_cons, ih]
        | none =>
          have hpc : properContainsFor x = false := by
            have h1 := first_inner_for_isSome_iff x
            rw [hsome] at h1
            simpa using h1.symm
          simp [hf, hsome, hpc, List.filter_cons, ih]
      · have hb : isFor x = false := Bool.not_eq_true _ |>.mp hf
        simp [hb, List.filter_cons, ih]
  rw [static_loops, aux]
  simp

/-- C4 (amended).  The nested-loop detector emits at most one Finding per `for`
node: exactly one medium-priority Finding, tagged with the node's line, for each
`for` node whose subtree strictly contains another `for`, and nothing for a loop
with no nested loop.  Since every nested `for` is itself scanned as an outer
loop, one loop containing two side-by-side inner loops yields one Finding, but a
chain of three nested loops yields two in total. -/
theorem nested_iteration_contract (fp : String) (t : Ast) :
    static_loops fp t
      = (t.walk.filter (fun n => isFor n && properContainsFor n)).map
          (nested_loop_finding fp)
    ∧ (static_loops fp t).length
        = t.walk.countP (fun n => isFor n && properContainsFor n) := by
  refine ⟨static_loops_eq fp t, ?_⟩
  rw [static_loops_eq fp t, List.length_map, List.countP_eq_length_filter]

/-- C4 counterexample: a unit whose body is a single loop containing two further
nested loops (as a chain).  The claim demands exactly one Finding in total; the
code emits two, because the middle loop is scanned as an outer loop of its own. -/
theorem nested_iteration_counterexample :
    isFor chain_outer = true ∧
    (chain_outer.walk.filter (fun c => isFor c && decide (c ≠ chain_outer))).length = 2 ∧
    (static_loops "f.py" chain_unit).length = 2 ∧
    (static_loops "f.py" chain_unit).length ≠ 1 := by
  decide

/-- C5: the concatenation heuristic emits exactly one Finding — low priority —
precisely when the `+=` count strictly exceeds 10 and the `str` marker occurs in
the text; with exactly 10 occurrences it emits nothing, and with 11 occurrences
but no marker it emits nothing. -/
theorem concat_heuristic_contract :
    (∀ (fp : String) (code : List Char),
       (static_concat fp code).length = 1
         ↔ (10 < count_concat_ops code ∧ contains_str_marker code = true))
    ∧ (∀ (fp : String) (code : List Char), (static_concat fp code).length ≤ 1)
    ∧ (∀ (fp : String) (code : List Char),
        (static_concat fp code).all (fun f => f.priority == "low") = true)
    ∧ static_concat "f.py" (token_run 10 ++ ['s', 't', 'r']) = []
    ∧ (static_concat "f.py" (token_run 11 ++ ['s', 't', 'r'])).length = 1
    ∧ static_concat "f.py" (token_run 11) = [] := by
  refine ⟨?_, ?_, ?_, by decide, by decide, by decide⟩
  · intro fp code
    by_cases h : 10 < count_concat_ops code ∧ contains_str_marker code = true
    · simp [static_concat, h]
    · simp [static_concat, h]
  · intro fp code
    by_cases h : 10 < count_concat_ops code ∧ contains_str_marker code = true
    · simp [static_concat, h]
    · simp [static_concat, h]
  · intro fp code
    by_cases h : 10 < count_concat_ops code ∧ contains_str_marker code = true
    · simp [static_concat, h]
    · simp [static_concat, h]

end CodeOptimizer

namespace CodeReviewer

theorem pythonInt_eq_trunc (q : ℚ) :
    pythonInt q = if q < 0 then ⌈q⌉ else ⌊q⌋ := by
  rcases le_or_lt 0 q with h | h
  · rw [if_neg (not_lt.mpr h)]
    have hnum : 0 ≤ q.num := Rat.num_nonneg.mpr h
    rw [pythonInt, Int.tdiv_eq_ediv hnum (Int.natCast_nonneg _), Rat.floor_def]
  · rw [if_pos h]
    have hnum : q.num < 0 := by
      rcases lt_or_le q.num 0 with h1 | h1
      · exact h1
      · exact absurd (Rat.num_nonneg.mp h1) (not_le.mpr h)
    have h1 : pythonInt q = -((-q.num).tdiv q.den) := by
      rw [pythonInt, Int.neg_tdiv, neg_neg]
    have h2 : (-q.num).tdiv q.den = (-q.num) / (q.den : Int) :=
      Int.tdiv_eq_ediv (by omega) (Int.natCast_nonneg _)
    have h3 : ((-q).num) / ((-q).den : Int) = ⌊-q⌋ := (Rat.floor_def).symm
    rw [Rat.neg_num, Rat.neg_den] at h3
    have h4 : ⌈q⌉ = -⌊-q⌋ := by
      rw [← Int.ceil_neg, neg_neg]
    rw [h1, h2, h3, h4]

theorem clamp_comm (w : Int) : max 1 (min 10 w) = min 10 (max 1 w) := by
  omega

theorem pythonInt_floor (q : ℚ) (h : 0 ≤ q) : pythonInt q = ⌊q⌋ := by
  rw [pythonInt, Int.tdiv_eq_ediv (Rat.num_nonneg.mpr h) (Int.natCast_nonneg _), Rat.floor_def]

/-- C3: `_calculate_score` equals the documented contract — 10 minus 2 per
critical issue, 1 per medium issue, 0.5 per low issue, plus 1 when suggestions
are present, truncated toward zero and clamped to [1, 10] — and in particular
zero issues with no suggestions give 10, three critical issues give 4, and a raw
value below 1 (nineteen low issues: 10 − 9.5 = 0.5, truncating to 0) clamps to
exactly 1. -/
theorem review_score_contract :
    (∀ review : ReviewPayload, calculate_score review = computeReviewScoreSpec review)
    ∧ calculate_score { summary := "", issues := [], suggestions := [], comments := [] } = 10
    ∧ calculate_score
        { summary := ""
          issues := [⟨some "critical"⟩, ⟨some "critical"⟩, ⟨some "critical"⟩]
          suggestions := [], comments := [] } = 4
    ∧ calculate_score
        { summary := "", issues := List.replicate 19 ⟨some "low"⟩
          suggestions := [], comments := [] } = 1 := by
  refine ⟨?_, ?_, ?_, ?_⟩
  · intro review
    simp only [calculate_score, computeReviewScoreSpec, pythonInt_eq_trunc,
      List.countP_eq_length_filter]
    by_cases hs : review.suggestions.isEmpty
    · have hlen : review.suggestions.length = 0 := by
        rcases List.isEmpty_iff.mp hs with h
        simp [h]
      simp only [hs, if_true, hlen, ne_eq, not_true_eq_false, if_false]
      have hq : ∀ c m l : ℚ, 10 - c * 2 - m * 1 - l * (1 / 2)
          = 10 - 2 * c - 1 * m - (1 / 2) * l + 0 := by
        intro c m l
        ring
      rw [hq]
      exact clamp_comm _
    · have hne : review.suggestions.length ≠ 0 := by
        intro h0
        exact hs (by simpa [List.isEmpty_iff, List.length_eq_zero] using h0)
      simp only [hs, if_false, hne, ne_eq, not_false_eq_true, if_true]
      have hq : ∀ c m l : ℚ, 10 - c * 2 - m * 1 - l * (1 / 2) + 1
          = 10 - 2 * c - 1 * m - (1 / 2) * l + 1 := by
        intro c m l
        ring
      rw [hq]
      exact clamp_comm _
  · simp only [calculate_score]
    simp [List.filter]
    rw [pythonInt_floor _ (by norm_num)]
    norm_num
  · simp only [calculate_score]
    simp [List.filter]
    rw [pythonInt_floor _ (by norm_num)]
    norm_num
  · simp only [calculate_score]
    simp [List.filter_replicate]
    rw [pythonInt_floor _ (by norm_num)]
    norm_num

end CodeReviewer

namespace CodeAnalyzer

/-- C6 counterexample: the issue and pattern lists of a failed-parse unit come
from the remote delegate's reply, which runs on the raw text regardless of the
parse outcome — here it reports one issue, so the failed unit's issue list is
not empty.  Its complexity is 0, as claimed. -/
theorem parse_failure_counterexample :
    (analyze_file failing_unit).complexity_score = 0 ∧
    (analyze_file failing_unit).issues_found ≠ [] := by
  decide

/-- C6 (amended): a batch of N units always yields N results — one unit's parse
failure aborts nothing — and a failed-parse unit scores complexity 0, while its
issue and pattern lists are exactly what the independent remote call produced:
empty whenever that call fails, but not empty in general. -/
theorem batch_parse_failure_contract (units : List SourceUnit) :
    (analyze_directory units).details.length = units.length
    ∧ (analyze_directory units).files_analyzed = units.length
    ∧ (∀ u ∈ units, u.parse = none →
        (analyze_file u).complexity_score = 0
        ∧ (analyze_file u).issues_found = (analyze_with_ai u.ai).issues
        ∧ (analyze_file u).patterns_detected = (analyze_with_ai u.ai).patterns
        ∧ (u.ai.isFailure = true →
            (analyze_file u).issues_found = []
            ∧ (analyze_file u).patterns_detected = [])) := by
  refine ⟨by simp [analyze_directory], by simp [analyze_directory], ?_⟩
  intro u _ hparse
  refine ⟨by simp [analyze_file, hparse], rfl, rfl, ?_⟩
  intro hfail
  cases hai : u.ai with
  | ok payload => rw [hai] at hfail; simp [RemoteOutcome.isFailure] at hfail
  | networkError => simp [analyze_file, hai, analyze_with_ai]
  | non2xx => simp [analyze_file, hai, analyze_with_ai]
  | timeout => simp [analyze_file, hai, analyze_with_ai]
  | malformedJson => simp [analyze_file, hai, analyze_with_ai]

theorem batch_parse_failure_contract_witness :
    (analyze_directory [failing_unit_timeout, ok_unit]).details.length = 2
    ∧ (analyze_file failing_unit_timeout).complexity_score = 0
    ∧ (analyze_file failing_unit_timeout).issues_found = []
    ∧ (analyze_file failing_unit_timeout).patterns_detected = [] := by
  have h := batch_parse_failure_contract [failing_unit_timeout, ok_unit]
  have hu := h.2.2 failing_unit_timeout (by decide) (by decide)
  have hf := hu.2.2.2 (by decide)
  exact ⟨h.1, hu.1, hf.1, hf.2⟩

end CodeAnalyzer

/-- C7: a remote delegate call that fails — network error, non-2xx status,
timeout, or malformed JSON — yields the documented empty default of the calling
operation (`{'issues': [], 'patterns': [], 'dependencies': []}` for the
analyzer, the fixed apology payload with empty lists for the reviewer, `[]` for
the optimizer) and, the embedded handlers being total functions, never
propagates an exception past the call site. -/
theorem remote_failure_defaults (o₁ : RemoteOutcome AiAnalysis)
    (o₂ : RemoteOutcome ReviewPayload) (o₃ : RemoteOutcome (List Finding))
    (h₁ : o₁.isFailure = true) (h₂ : o₂.isFailure = true) (h₃ : o₃.isFailure = true) :
    CodeAnalyzer.analyze_with_ai o₁ = { issues := [], patterns := [], dependencies := [] }
    ∧ CodeReviewer.analyze_with_ai o₂ = CodeReviewer.error_default
    ∧ CodeOptimizer.analyze_with_ai o₃ = [] := by
  refine ⟨?_, ?_, ?_⟩
  · cases o₁ with
    | ok payload => simp [RemoteOutcome.isFailure] at h₁
    | networkError => rfl
    | non2xx => rfl
    | timeout => rfl
    | malformedJson => rfl
  · cases o₂ with
    | ok payload => simp [RemoteOutcome.isFailure] at h₂
    | networkError => rfl
    | non2xx => rfl
    | timeout => rfl
    | malformedJson => rfl
  · cases o₃ with
    | ok payload => simp [RemoteOutcome.isFailure] at h₃
    | networkError => rfl
    | non2xx => rfl
    | timeout => rfl
    | malformedJson => rfl

theorem remote_failure_defaults_witness :
    CodeAnalyzer.analyze_with_ai (RemoteOutcome.timeout)
        = { issues := [], patterns := [], dependencies := [] }
    ∧ CodeReviewer.analyze_with_ai RemoteOutcome.malformedJson = CodeReviewer.error_default
    ∧ CodeOptimizer.analyze_with_ai RemoteOutcome.networkError = [] :=
  remote_failure_defaults RemoteOutcome.timeout RemoteOutcome.malformedJson
    RemoteOutcome.networkError rfl rfl rfl

namespace Documentor

/-- C2 (code bug): on a unit with one class holding two methods and one free
function, `_extract_classes` does return the class with its two methods in
declaration order, but `_extract_functions` evaluates `node.parent` — an
attribute `ast` nodes do not have — and raises `AttributeError` on the first
function-definition node instead of returning the free function. -/
theorem extract_functions_attribute_error :
    extract_classes sample_module
      = [{ name := "C"
           docstring := some "class doc"
           methods := [{ name := "m1", docstring := none, args := ["self"] },
                       { name := "m2", docstring := none, args := ["self", "x"] }] }]
    ∧ extract_functions sample_module
        = .error "AttributeError: 'FunctionDef' object has no attribute 'parent'" :=
  ⟨by decide, by rfl⟩

end Documentor

/-- C9: constructing the REST client with the required credential absent (empty
auth token) raises immediately — no client value is produced — and with any
non-empty token the constructor succeeds, returning the client unchanged. -/
theorem github_token_required (config : GitHubConfig) :
    (config.github_token = "" →
      GitHubAPI.init config = Except.error "GitHub token is required")
    ∧ (config.github_token ≠ "" →
        GitHubAPI.init config
          = Except.ok
              { base_url := "https://api.github.com"
                token := config.github_token
                repository := config.github_repository }) := by
  constructor
  · intro h
    simp [GitHubAPI.init, h]
  · intro h
    simp [GitHubAPI.init, h]

theorem github_token_required_witness :
    GitHubAPI.init { github_token := "", github_repository := "owner/repo" }
        = Except.error "GitHub token is required"
    ∧ GitHubAPI.init { github_token := "ghp-x", github_repository := "owner/repo" }
        = Except.ok
            { base_url := "https://api.github.com"
              token := "ghp-x"
              repository := "owner/repo" } :=
  ⟨(github_token_required { github_token := "", github_repository := "owner/repo" }).1 rfl,
   (github_token_required { github_token := "ghp-x", github_repository := "owner/repo" }).2
     (by decide)⟩

namespace CodeOptimizer

/-- C10: the returned suggestion list holds at most `max_suggestions` entries,
and `total_suggestions` equals the length of that already-truncated list — the
minimum of the cap and the gathered total, not the pre-truncation count. -/
theorem optimize_truncation_contract (path : String) (units : List OptUnit)
    (max_suggestions : Nat) :
    (optimize_code path units max_suggestions).suggestions.length ≤ max_suggestions
    ∧ (optimize_code path units max_suggestions).total_suggestions
        = (optimize_code path units max_suggestions).suggestions.length
    ∧ (optimize_code path units max_suggestions).total_suggestions
        = min max_suggestions (units.flatMap optimize_file).length := by
  refine ⟨?_, rfl, ?_⟩
  · simp [optimize_code, List.length_take]
  · simp [optimize_code, List.length_take]

end CodeOptimizer
